import Mathlib

/-!
Verification of the `pebr_benchmark` harness (`src/main.rs`).

The harness measures throughput and memory of concurrent maps under three
reclamation schemes (NR / EBR / PEBR).  The definitions below are a shallow
embedding of the parts of `main.rs` the claims are about:

* the configuration derived in `setup` (aux-thread spawning, non-cooperation
  period, sampling flag, operation weights);
* the auxiliary sampling/interference thread of `bench_ebr`/`bench_pebr`
  (and the sampling-only variant of `bench_nr`), modelled as a fold over the
  schedule of loop iterations, where each iteration is given the `Instant::now()`
  value observed (in milliseconds since the post-barrier `start`) and the
  allocator reading that `stats::allocated::read()` would return;
* the worker-thread critical-section loops, modelled as the trace of events
  (map operation / guard drop / guard pin / handle clear / guard repin) they emit;
* the prefill strategies;
* the coordinator's aggregation of the per-thread operation counts and the
  memory-channel message.

Durations are in milliseconds (`Duration::from_secs(interval)` becomes
`interval * 1000`); machine integers (`u64`/`usize`) are modelled as `Nat`
(no benchmark quantity approaches 2^64, and no subtraction on them occurs in
the embedded code paths).  Rust integer division panics on a zero divisor, so
code performing `acc / samples` is embedded as an `Option`, `none` meaning the
thread panics.
-/

/-- Memory-manager selection (`enum MM` in `main.rs`). -/
inductive MM where
  | NR
  | EBR
  | PEBR
deriving DecidableEq

/-- Benchmark operations (`enum Op` in `main.rs`). -/
inductive Op where
  | Get
  | Insert
  | Remove
deriving DecidableEq

/-- The constant `Op::OPS: [Op; 3] = [Get, Insert, Remove]` indexed by the
sampled `WeightedIndex` value. -/
def Op.OPS : List Op := [Op.Get, Op.Insert, Op.Remove]

/-- Prefill strategies (`enum PrefillStrategy` in `main.rs`). -/
inductive PrefillStrategy where
  | Random
  | Decreasing
deriving DecidableEq

/-- The fields of `struct Config` that the verified code paths read.
`op_dist` is represented by `get_rate` (the weights are recovered through
`opWeights`), `key_dist` by the abstract key streams fed to the prefill and
workload models.  All durations are milliseconds. -/
structure Config where
  mm : MM
  threads : Nat
  aux_thread : Nat
  aux_thread_period : Nat
  non_coop : Nat
  non_coop_period : Nat
  sampling : Bool
  sampling_period : Nat
  get_rate : Nat
  prefill : Nat
  interval : Nat
  duration : Nat
  ops_per_cs : Nat
deriving DecidableEq

/-- The operation-weight table chosen in `setup` (`main.rs:221-225`):
get-rate occurrences 0, 1, and ≥ 2 select `[0,1,1]`, `[2,1,1]`, `[18,1,1]`. -/
def opWeights (get_rate : Nat) : List Nat :=
  match get_rate with
  | 0 => [0, 1, 1]
  | 1 => [2, 1, 1]
  | _ => [18, 1, 1]

/-- `Config` construction from `setup` (`main.rs:202-295`): `non_coop` and
`get_rate` are clamped occurrence counts (`min(2, occurrences)`), sampling is
enabled iff the sampling period is positive, the auxiliary thread exists iff
sampling is enabled or `non_coop > 0`, and the repin period is 10ms at
non-cooperation level 1 and the whole run duration otherwise. -/
def mkConfig (mm : MM) (threads nOcc gOcc prefill interval sampling_period ops_per_cs : Nat) :
    Config :=
  let non_coop := min 2 nOcc
  let sampling := decide (0 < sampling_period)
  { mm := mm
    threads := threads
    aux_thread := if sampling || decide (0 < non_coop) then 1 else 0
    aux_thread_period := 1
    non_coop := non_coop
    non_coop_period := if non_coop = 1 then 10 else interval * 1000
    sampling := sampling
    sampling_period := sampling_period
    get_rate := min 2 gOcc
    prefill := prefill
    interval := interval
    duration := interval * 1000
    ops_per_cs := ops_per_cs }

/-- `WeightedIndex::sample` for integer weights: the uniformly drawn value
`x < total weight` selects the first index whose cumulative weight exceeds
`x`. -/
def weightedSample : List Nat → Nat → Nat
  | [], _ => 0
  | w :: ws, x => if x < w then 0 else weightedSample ws (x - w) + 1

/-- The keys pushed by the prefill sampling loop
(`for _ in 0..config.prefill { keys.push(config.key_dist.sample(&mut rng)) }`,
`main.rs:388-390`): `f` is the stream of values produced by the random number
generator, and exactly `prefill` of them are taken. -/
def sampledKeys (f : Nat → Nat) (prefill : Nat) : List Nat :=
  (List.range prefill).map f

/-- The order in which `prefill_ebr`/`prefill_pebr` (`main.rs:370-433`)
attempt their inserts, given the sampled keys: `Random` inserts them as drawn;
`Decreasing` first sorts them descending (`keys.sort_by(|a, b| b.cmp(a))`). -/
def prefillKeyOrder : PrefillStrategy → List Nat → List Nat
  | PrefillStrategy.Random, keys => keys
  | PrefillStrategy.Decreasing, keys => keys.mergeSort fun a b => decide (b ≤ a)

/-- The coordinator's operation-count receive loop
(`for _ in 0..config.threads { ops += ops_receiver.recv().unwrap() }`,
`main.rs:509-513`, and identically at 622-626, 737-741), given the list of
messages received. -/
def recvOpsSum (msgs : List Nat) : Nat :=
  msgs.foldl (· + ·) 0

/-- The final result tuple assembled by `bench_nr`/`bench_ebr`/`bench_pebr`
(`main.rs:514-516`): throughput is the summed count divided (truncating `u64`
division) by the configured interval in seconds, and the memory pair is
passed through from the memory channel. -/
def benchResult (interval : Nat) (opsMsgs : List Nat) (mem : Nat × Nat) :
    Nat × Nat × Nat :=
  (recvOpsSum opsMsgs / interval, mem.1, mem.2)

/-- Messages present on `bench_nr`'s memory channel (`main.rs:445-473,515`):
one per spawned auxiliary thread that ran to completion (`auxSend = none`
means the auxiliary thread panicked before sending).  `bench_nr` has no
branch sending a `(0, 0)` pair when no auxiliary thread is spawned. -/
def nrMemMsgs (cfg : Config) (auxSend : Option (Nat × Nat)) : List (Nat × Nat) :=
  if 0 < cfg.aux_thread then auxSend.toList else []

/-- Messages present on `bench_ebr`'s / `bench_pebr`'s memory channel
(`main.rs:534-580`, 647-693): the auxiliary thread's message when it is
spawned, and otherwise the `(0, 0)` pair the spawning scope sends itself
(`main.rs:578-580`). -/
def ebrMemMsgs (cfg : Config) (auxSend : Option (Nat × Nat)) : List (Nat × Nat) :=
  if 0 < cfg.aux_thread then auxSend.toList else [(0, 0)]

/-- The coordinator's final receive on the memory channel plus result
assembly (`main.rs:509-516`): `mem_receiver.recv()` never returns when no
message is ever sent (the sending half is still alive), so an empty message
list yields `none` (no result is ever produced). -/
def collectRun (interval : Nat) (opsMsgs : List Nat) (memMsgs : List (Nat × Nat)) :
    Option (Nat × Nat × Nat) :=
  memMsgs.head?.map fun m => benchResult interval opsMsgs m

/-- Accumulator state of the auxiliary thread's loop
(`main.rs:537-566`, identically 650-679, and the sampling part 452-470):
sample count, running sum, running maximum, and the two deadline registers
`next_sampling` and `next_repin` (ms since the post-barrier `start`). -/
structure AuxState where
  samples : Nat
  acc : Nat
  peak : Nat
  next_sampling : Nat
  next_repin : Nat
deriving DecidableEq

/-- Observable actions of the auxiliary thread: guard pin / drop / repin
(`handle.pin()`, `ManuallyDrop::drop`, `guard.repin()`) and taking one
allocator sample of value `v`. -/
inductive AuxEvent where
  | pin
  | dropGuard
  | repin
  | sample (v : Nat)
deriving DecidableEq

/-- The allocator readings among a list of auxiliary-thread events. -/
def sampledVals (evs : List AuxEvent) : List Nat :=
  evs.filterMap fun e =>
    match e with
    | AuxEvent.sample v => some v
    | _ => none

/-- One pass through the sampling conditional
(`if now > next_sampling { epoch.advance(); let allocated = read();
samples += 1; acc += allocated; peak = max(peak, allocated);
next_sampling = now + sampling_period }`, `main.rs:553-560`):
`now` is the `Instant::now()` of this iteration and `reading` the value the
allocator would report. -/
def sampleStep (sp : Nat) (st : AuxState) (now reading : Nat) :
    AuxState × List AuxEvent :=
  if st.next_sampling < now then
    ({ st with
        samples := st.samples + 1
        acc := st.acc + reading
        peak := max st.peak reading
        next_sampling := now + sp },
      [AuxEvent.sample reading])
  else (st, [])

/-- One full iteration of the auxiliary loop body of `bench_ebr`/`bench_pebr`
(`main.rs:551-566`): the sampling conditional followed by the repin
conditional (`if now > next_repin { guard.repin(); next_repin = now +
non_coop_period }`). -/
def auxIter (cfg : Config) (st : AuxState) (now reading : Nat) :
    AuxState × List AuxEvent :=
  let s := sampleStep cfg.sampling_period st now reading
  if s.1.next_repin < now then
    ({ s.1 with next_repin := now + cfg.non_coop_period },
      s.2 ++ [AuxEvent.repin])
  else s

/-- The auxiliary `while start.elapsed() < duration` loop of
`bench_ebr`/`bench_pebr`, folded over the schedule of iterations that ran;
each schedule entry is the pair (observed `now`, allocator reading). -/
def auxLoop (cfg : Config) : AuxState → List (Nat × Nat) → AuxState × List AuxEvent
  | st, [] => (st, [])
  | st, tr :: rest =>
    let s := auxIter cfg st tr.1 tr.2
    let next := auxLoop cfg s.1 rest
    (next.1, s.2 ++ next.2)

/-- The auxiliary thread's state at the start barrier: zero statistics,
first sampling deadline one period after `start`, first repin deadline one
non-cooperation period after `start` (`main.rs:549-550`). -/
def auxInit (cfg : Config) : AuxState :=
  { samples := 0
    acc := 0
    peak := 0
    next_sampling := cfg.sampling_period
    next_repin := cfg.non_coop_period }

/-- The complete auxiliary thread of `bench_ebr`/`bench_pebr`
(`main.rs:536-577`): pin a guard after the barrier, drop it immediately iff
`non_coop == 0`, run the loop, force-drop the still-held guard iff
`non_coop > 0`, then send `(peak, acc / samples)` when sampling is enabled
(a panic — `none` — when zero samples were taken, since `usize` division by
zero panics) and `(0, 0)` otherwise.  The returned event list is the sequence
of guard/sample actions the thread performed. -/
def auxRun (cfg : Config) (sched : List (Nat × Nat)) :
    Option ((Nat × Nat) × List AuxEvent) :=
  let run := auxLoop cfg (auxInit cfg) sched
  let evs :=
    (AuxEvent.pin :: (if cfg.non_coop = 0 then [AuxEvent.dropGuard] else []))
      ++ run.2
      ++ (if 0 < cfg.non_coop then [AuxEvent.dropGuard] else [])
  (if cfg.sampling then
      if run.1.samples = 0 then none
      else some (run.1.peak, run.1.acc / run.1.samples)
    else some (0, 0)).map fun m => (m, evs)

/-- The sampling loop of `bench_nr`'s auxiliary thread (`main.rs:459-470`):
same sampling conditional, but no guard and no repin logic at all. -/
def nrAuxLoop (sp : Nat) : AuxState → List (Nat × Nat) → AuxState
  | st, [] => st
  | st, tr :: rest => nrAuxLoop sp (sampleStep sp st tr.1 tr.2).1 rest

/-- The complete auxiliary thread of `bench_nr` (`main.rs:450-472`): it
begins with `assert!(config.sampling)` (a panic — `none` — when sampling is
disabled), runs the sampling loop, and unconditionally sends
`(peak, acc / samples)` (a panic when zero samples were taken). -/
def nrAuxRun (cfg : Config) (sched : List (Nat × Nat)) : Option (Nat × Nat) :=
  if cfg.sampling then
    let st := nrAuxLoop cfg.sampling_period (auxInit cfg) sched
    if st.samples = 0 then none else some (st.peak, st.acc / st.samples)
  else none

/-- The allocator readings actually sampled by `bench_nr`'s auxiliary loop:
the readings of exactly those iterations of `nrAuxLoop` whose sampling
conditional fires.  Like the schedule itself, these all belong to the
post-barrier loop (`main.rs:455-470`). -/
def nrSampled (sp : Nat) : AuxState → List (Nat × Nat) → List Nat
  | _, [] => []
  | st, tr :: rest =>
    sampledVals (sampleStep sp st tr.1 tr.2).2 ++
      nrSampled sp (sampleStep sp st tr.1 tr.2).1 rest

/-- Observable actions of a worker thread's critical-section loop: one map
operation (`get`/`insert`/`remove`), guard drop, guard pin, map-handle clear,
guard repin. -/
inductive WEvent where
  | mapOp
  | dropGuard
  | pinGuard
  | clearHandle
  | repinGuard
deriving DecidableEq

/-- The worker critical-section loop shared by `bench_ebr` (`main.rs:595-614`)
and `bench_pebr` (`main.rs:710-729`), as the trace of events of `k` executed
iterations: each iteration performs one map operation, increments `ops`, and
iff the new count is a multiple of `n = N::to_u64()` emits the
renewal-boundary events `renew` (EBR: `drop(guard); guard = handle.pin()`;
PEBR: `M::clear(&mut map_handle); guard.repin()`).  `ops` is the operation
count before the iteration. -/
def workerLoop (renew : List WEvent) (n : Nat) : Nat → Nat → List WEvent
  | 0, _ => []
  | k + 1, ops =>
    WEvent.mapOp ::
      ((if (ops + 1) % n = 0 then renew else []) ++ workerLoop renew n k (ops + 1))

/-- `bench_ebr`'s worker loop trace (`main.rs:610-613`): the renewal boundary
drops the guard and pins a fresh one. -/
def ebrWorkerEvents (n k : Nat) : List WEvent :=
  workerLoop [WEvent.dropGuard, WEvent.pinGuard] n k 0

/-- `bench_pebr`'s worker loop trace (`main.rs:725-728`): the renewal
boundary clears the per-thread map handle and then repins the existing
guard. -/
def pebrWorkerEvents (n k : Nat) : List WEvent :=
  workerLoop [WEvent.clearHandle, WEvent.repinGuard] n k 0

/-- The events of one full EBR critical section of size four. -/
def ebrBlock : List WEvent :=
  [WEvent.mapOp, WEvent.mapOp, WEvent.mapOp, WEvent.mapOp,
    WEvent.dropGuard, WEvent.pinGuard]

/-- The events of one full PEBR critical section of size four. -/
def pebrBlock : List WEvent :=
  [WEvent.mapOp, WEvent.mapOp, WEvent.mapOp, WEvent.mapOp,
    WEvent.clearHandle, WEvent.repinGuard]

theorem recvOpsSum_eq_sum (msgs : List Nat) : recvOpsSum msgs = msgs.sum := by
  have h : ∀ (l : List Nat) (a : Nat), l.foldl (· + ·) a = a + l.sum := by
    intro l
    induction l with
    | nil => simp
    | cons x xs ih => intro a; simp [List.foldl_cons, ih, List.sum_cons]; omega
  simpa [recvOpsSum] using h msgs 0

/-- C1: for every run, the reported throughput is the sum of all worker
threads' operation counts divided by the configured duration in whole
seconds, with truncating (`Nat`, as `u64` in the source) division; the
memory pair is passed through unchanged. -/
theorem throughput_eq_sum_div_interval (interval : Nat) (opsMsgs : List Nat)
    (mem : Nat × Nat) :
    benchResult interval opsMsgs mem = (opsMsgs.sum / interval, mem.1, mem.2) := by
  simp [benchResult, recvOpsSum_eq_sum]

/-- C2 (code bug): with `-m NR -n` and sampling disabled, `setup`
(`main.rs:271`) still sets `aux_thread = 1` because `non_coop > 0`, so
`bench_nr` spawns the auxiliary thread, which immediately fails
`assert!(config.sampling)` (`main.rs:451`) and panics, aborting the run.
The claim (and the assert itself) expect that under NR an auxiliary thread
exists only when sampling is enabled and that non-cooperation has no
effect. -/
theorem nr_aux_spawned_without_sampling_panics :
    (mkConfig MM.NR 4 1 0 50 1 0 1).sampling = false ∧
    (mkConfig MM.NR 4 1 0 50 1 0 1).aux_thread = 1 ∧
    nrAuxRun (mkConfig MM.NR 4 1 0 50 1 0 1) [(5, 100)] = none := by
  refine ⟨by decide, by decide, by decide⟩

/-- C3 (code bug): with `-m NR`, sampling disabled and non-cooperation 0 no
auxiliary thread is spawned, nothing is ever sent on `bench_nr`'s memory
channel (`bench_nr` lacks the `(0, 0)`-synthesizing branch that
`bench_ebr`/`bench_pebr` have at `main.rs:578-580`, 691-693), and the
coordinator's `mem_receiver.recv()` (`main.rs:515`) blocks forever, so the
run never terminates with a result (`none`); the same configuration under
EBR terminates with `peak = avg = 0` as the claim describes. -/
theorem nr_no_aux_no_mem_message_no_result :
    ((mkConfig MM.NR 4 0 0 50 1 0 1).aux_thread = 0 ∧
      nrMemMsgs (mkConfig MM.NR 4 0 0 50 1 0 1) none = [] ∧
      collectRun 1 [5, 7, 9, 11] (nrMemMsgs (mkConfig MM.NR 4 0 0 50 1 0 1) none) =
        none) ∧
    collectRun 1 [5, 7, 9, 11] (ebrMemMsgs (mkConfig MM.EBR 4 0 0 50 1 0 1) none) =
      some (32, 0, 0) := by
  refine ⟨⟨by decide, by decide, by decide⟩, by decide⟩

/-- C4: the `Decreasing` prefill strategy samples exactly `prefill` keys,
and its insert phase attempts exactly `prefill` inserts, in non-increasing
numeric key order, on a permutation of the sampled keys (so duplicate samples
are inserted too and only reduce the distinct-key count, never the number of
attempted inserts). -/
theorem decreasing_prefill_inserts (f : Nat → Nat) (prefill : Nat) :
    (sampledKeys f prefill).length = prefill ∧
    (prefillKeyOrder PrefillStrategy.Decreasing (sampledKeys f prefill)).length =
      prefill ∧
    (prefillKeyOrder PrefillStrategy.Decreasing (sampledKeys f prefill)).Perm
      (sampledKeys f prefill) ∧
    List.Pairwise (fun a b => b ≤ a)
      (prefillKeyOrder PrefillStrategy.Decreasing (sampledKeys f prefill)) := by
  refine ⟨by simp [sampledKeys], ?_, ?_, ?_⟩
  · simp [prefillKeyOrder, List.length_mergeSort, sampledKeys]
  · exact List.mergeSort_perm _ _
  · have hs := @List.sorted_mergeSort Nat (fun a b : Nat => decide (b ≤ a))
      (fun a b c hab hbc => by
        simp only [decide_eq_true_eq] at hab hbc ⊢; omega)
      (fun a b => by
        simp only [Bool.or_eq_true, decide_eq_true_eq]; omega)
      (sampledKeys f prefill)
    simpa only [prefillKeyOrder, decide_eq_true_eq] using hs

theorem weightedSample_getD_ne_zero :
    ∀ (ws : List Nat) (x : Nat), x < ws.sum → ws.getD (weightedSample ws x) 1 ≠ 0
  | [], x, h => by simp at h
  | w :: ws, x, h => by
    by_cases hx : x < w
    · simp only [weightedSample, if_pos hx, List.getD_cons_zero]
      omega
    · have hlt : x - w < ws.sum := by
        simp only [List.sum_cons] at h; omega
      simpa only [weightedSample, if_neg hx, List.getD_cons_succ] using
        weightedSample_getD_ne_zero ws (x - w) hlt

/-- C5: get-rate levels 0, 1, 2 select the weight vectors `[0,1,1]`,
`[2,1,1]`, `[18,1,1]` over `{Get, Insert, Remove}`; for every get-rate level
the sampled category always has non-zero weight; in particular at level 0 a
`Get` operation is never produced. -/
theorem get_rate_weights_zero_weight_never_sampled :
    opWeights 0 = [0, 1, 1] ∧ opWeights 1 = [2, 1, 1] ∧ opWeights 2 = [18, 1, 1] ∧
    (∀ (g x : Nat), x < (opWeights g).sum →
      (opWeights g).getD (weightedSample (opWeights g) x) 1 ≠ 0) ∧
    (∀ x : Nat, x < (opWeights 0).sum →
      Op.OPS.getD (weightedSample (opWeights 0) x) Op.Get ≠ Op.Get) := by
  refine ⟨rfl, rfl, rfl, fun g x hx => weightedSample_getD_ne_zero _ x hx, ?_⟩
  intro x hx
  have hx2 : x < 2 := by simpa [opWeights] using hx
  interval_cases x <;> decide

/-- Witness for C5 at concrete inputs: with get-rate 0 and drawn values 1
and 0, the sampled weight is non-zero and the produced operation is not
`Get`. -/
theorem get_rate_weights_witness :
    (opWeights 0).getD (weightedSample (opWeights 0) 1) 1 ≠ 0 ∧
    Op.OPS.getD (weightedSample (opWeights 0) 0) Op.Get ≠ Op.Get :=
  ⟨get_rate_weights_zero_weight_never_sampled.2.2.2.1 0 1 (by decide),
    get_rate_weights_zero_weight_never_sampled.2.2.2.2 0 (by decide)⟩

theorem workerLoop_four_block (renew : List WEvent) :
    ∀ (k ops : Nat), ops % 4 = 0 →
      workerLoop renew 4 k ops =
        (List.replicate (k / 4)
            ([WEvent.mapOp, WEvent.mapOp, WEvent.mapOp, WEvent.mapOp] ++ renew)).flatten
          ++ List.replicate (k % 4) WEvent.mapOp
  | 0, ops, _ => by simp [workerLoop]
  | 1, ops, h => by
    have h1 : ¬((ops + 1) % 4 = 0) := by omega
    simp [workerLoop, h1]
  | 2, ops, h => by
    have h1 : ¬((ops + 1) % 4 = 0) := by omega
    have h2 : ¬((ops + 1 + 1) % 4 = 0) := by omega
    simp [workerLoop, h1, h2]
  | 3, ops, h => by
    have h1 : ¬((ops + 1) % 4 = 0) := by omega
    have h2 : ¬((ops + 1 + 1) % 4 = 0) := by omega
    have h3 : ¬((ops + 1 + 1 + 1) % 4 = 0) := by omega
    simp [workerLoop, h1, h2, h3]
  | m + 4, ops, h => by
    have h1 : ¬((ops + 1) % 4 = 0) := by omega
    have h2 : ¬((ops + 1 + 1) % 4 = 0) := by omega
    have h3 : ¬((ops + 1 + 1 + 1) % 4 = 0) := by omega
    have h4 : (ops + 1 + 1 + 1 + 1) % 4 = 0 := by omega
    have ih := workerLoop_four_block renew m (ops + 1 + 1 + 1 + 1) h4
    have e1 : (m + 4) / 4 = m / 4 + 1 := by omega
    have e2 : (m + 4) % 4 = m % 4 := by omega
    simp [workerLoop, h1, h2, h3, h4, ih, e1, e2, List.replicate_succ]

theorem workerLoop_one_block (renew : List WEvent) :
    ∀ (k ops : Nat),
      workerLoop renew 1 k ops = (List.replicate k (WEvent.mapOp :: renew)).flatten
  | 0, _ => by simp [workerLoop]
  | k + 1, ops => by
    simp [workerLoop, workerLoop_one_block renew k (ops + 1), List.replicate_succ,
      Nat.mod_one]

theorem count_flatten_replicate (e : WEvent) (blk : List WEvent) :
    ∀ j : Nat, ((List.replicate j blk).flatten.count e) = j * blk.count e
  | 0 => by simp
  | j + 1 => by
    simp [List.replicate_succ, List.count_append, count_flatten_replicate e blk j,
      Nat.succ_mul]
    omega

/-- C6: under EBR with four operations per critical section, a worker's `k`
loop iterations consist of complete critical sections of exactly four map
operations followed by one guard renewal (`drop(guard); guard =
handle.pin()`), plus a final partial batch with no renewal: the guard is
renewed exactly once per four completed operations (`k / 4` drops and `k / 4`
fresh pins in total) and never between the operations of a batch. -/
theorem ebr_guard_renewed_once_per_four_ops (k : Nat) :
    ebrWorkerEvents 4 k =
      (List.replicate (k / 4) ebrBlock).flatten ++
        List.replicate (k % 4) WEvent.mapOp ∧
    (ebrWorkerEvents 4 k).count WEvent.dropGuard = k / 4 ∧
    (ebrWorkerEvents 4 k).count WEvent.pinGuard = k / 4 ∧
    (ebrWorkerEvents 4 k).count WEvent.mapOp = k := by
  have hb := workerLoop_four_block [WEvent.dropGuard, WEvent.pinGuard] k 0 rfl
  have hform : ebrWorkerEvents 4 k =
      (List.replicate (k / 4) ebrBlock).flatten ++
        List.replicate (k % 4) WEvent.mapOp := by
    simpa [ebrWorkerEvents, ebrBlock] using hb
  refine ⟨hform, ?_, ?_, ?_⟩ <;>
    rw [hform] <;>
    simp [List.count_append, count_flatten_replicate, List.count_replicate,
      ebrBlock, List.count_cons] <;>
    omega

/-- C7: under PEBR every guard-renewal boundary first clears the per-thread
map handle and then repins the existing guard (`M::clear(&mut map_handle);
guard.repin()`): for both critical-section sizes (1 and 4) the worker trace
is a sequence of blocks ending in `clearHandle` directly followed by
`repinGuard`, and the loop never drops the guard or pins a new one. -/
theorem pebr_renewal_clears_handle_then_repins (k : Nat) :
    pebrWorkerEvents 4 k =
      (List.replicate (k / 4) pebrBlock).flatten ++
        List.replicate (k % 4) WEvent.mapOp ∧
    pebrWorkerEvents 1 k =
      (List.replicate k
          [WEvent.mapOp, WEvent.clearHandle, WEvent.repinGuard]).flatten ∧
    WEvent.dropGuard ∉ pebrWorkerEvents 4 k ∧
    WEvent.pinGuard ∉ pebrWorkerEvents 4 k ∧
    WEvent.dropGuard ∉ pebrWorkerEvents 1 k ∧
    WEvent.pinGuard ∉ pebrWorkerEvents 1 k := by
  have h4 : pebrWorkerEvents 4 k =
      (List.replicate (k / 4) pebrBlock).flatten ++
        List.replicate (k % 4) WEvent.mapOp := by
    simpa [pebrWorkerEvents, pebrBlock] using
      workerLoop_four_block [WEvent.clearHandle, WEvent.repinGuard] k 0 rfl
  have h1 : pebrWorkerEvents 1 k =
      (List.replicate k
          [WEvent.mapOp, WEvent.clearHandle, WEvent.repinGuard]).flatten := by
    simpa [pebrWorkerEvents] using
      workerLoop_one_block [WEvent.clearHandle, WEvent.repinGuard] k 0
  refine ⟨h4, h1, ?_, ?_, ?_, ?_⟩ <;>
    first
      | (rw [h4]
         simp [List.mem_append, List.mem_flatten, List.mem_replicate, pebrBlock])
      | (rw [h1]
         simp [List.mem_flatten, List.mem_replicate])

theorem sampledVals_append (e1 e2 : List AuxEvent) :
    sampledVals (e1 ++ e2) = sampledVals e1 ++ sampledVals e2 :=
  List.filterMap_append e1 e2 _

theorem auxIter_stats (cfg : Config) (st : AuxState) (t r : Nat) :
    (auxIter cfg st t r).1.samples =
      st.samples + (sampledVals (auxIter cfg st t r).2).length ∧
    (auxIter cfg st t r).1.acc = st.acc + (sampledVals (auxIter cfg st t r).2).sum ∧
    (auxIter cfg st t r).1.peak =
      List.foldl max st.peak (sampledVals (auxIter cfg st t r).2) := by
  unfold auxIter sampleStep
  by_cases h1 : st.next_sampling < t <;>
    simp only [h1, if_pos, if_neg, ite_true, ite_false] <;>
    split <;>
    simp [sampledVals]

theorem auxLoop_stats (cfg : Config) :
    ∀ (sched : List (Nat × Nat)) (st : AuxState),
      (auxLoop cfg st sched).1.samples =
        st.samples + (sampledVals (auxLoop cfg st sched).2).length ∧
      (auxLoop cfg st sched).1.acc =
        st.acc + (sampledVals (auxLoop cfg st sched).2).sum ∧
      (auxLoop cfg st sched).1.peak =
        List.foldl max st.peak (sampledVals (auxLoop cfg st sched).2)
  | [], st => by simp [auxLoop, sampledVals]
  | tr :: rest, st => by
    obtain ⟨i1, i2, i3⟩ := auxIter_stats cfg st tr.1 tr.2
    obtain ⟨l1, l2, l3⟩ := auxLoop_stats cfg rest (auxIter cfg st tr.1 tr.2).1
    unfold auxLoop
    refine ⟨?_, ?_, ?_⟩
    · simp [sampledVals_append, l1, i1]; omega
    · simp [sampledVals_append, l2, i2]; omega
    · simp [sampledVals_append, l3, i3, List.foldl_append]

theorem auxIter_le_next_repin (cfg : Config) (st : AuxState) (t r : Nat)
    (h : t ≤ st.next_repin) :
    (auxIter cfg st t r).1.next_repin = st.next_repin ∧
    AuxEvent.repin ∉ (auxIter cfg st t r).2 := by
  unfold auxIter sampleStep
  by_cases h1 : st.next_sampling < t <;>
    simp [h1, Nat.not_lt.mpr h]

theorem auxLoop_no_repin (cfg : Config) :
    ∀ (sched : List (Nat × Nat)) (st : AuxState),
      (∀ tr ∈ sched, tr.1 ≤ st.next_repin) →
      (auxLoop cfg st sched).1.next_repin = st.next_repin ∧
      AuxEvent.repin ∉ (auxLoop cfg st sched).2
  | [], st, _ => by simp [auxLoop]
  | tr :: rest, st, h => by
    have h0 : tr.1 ≤ st.next_repin := h tr (by simp)
    obtain ⟨i1, i2⟩ := auxIter_le_next_repin cfg st tr.1 tr.2 h0
    have hrest : ∀ p ∈ rest, p.1 ≤ (auxIter cfg st tr.1 tr.2).1.next_repin := by
      intro p hp
      rw [i1]
      exact h p (List.mem_cons_of_mem _ hp)
    obtain ⟨l1, l2⟩ := auxLoop_no_repin cfg rest (auxIter cfg st tr.1 tr.2).1 hrest
    unfold auxLoop
    refine ⟨by simp [l1, i1], ?_⟩
    simp [List.mem_append, i2, l2]

theorem auxIter_events (cfg : Config) (st : AuxState) (t r : Nat) :
    ∀ e ∈ (auxIter cfg st t r).2, e ≠ AuxEvent.pin ∧ e ≠ AuxEvent.dropGuard := by
  unfold auxIter sampleStep
  by_cases h1 : st.next_sampling < t <;>
    simp [h1] <;>
    split <;>
    simp

theorem auxLoop_events (cfg : Config) :
    ∀ (sched : List (Nat × Nat)) (st : AuxState),
      ∀ e ∈ (auxLoop cfg st sched).2, e ≠ AuxEvent.pin ∧ e ≠ AuxEvent.dropGuard
  | [], st => by simp [auxLoop]
  | tr :: rest, st => by
    have hi := auxIter_events cfg st tr.1 tr.2
    have hl := auxLoop_events cfg rest (auxIter cfg st tr.1 tr.2).1
    unfold auxLoop
    intro e he
    rcases List.mem_append.mp (by simpa using he) with h | h
    · exact hi e h
    · exact hl e h

theorem sampleStep_no_fire (sp : Nat) (st : AuxState) (t r : Nat)
    (h : t ≤ st.next_sampling) : sampleStep sp st t r = (st, []) := by
  unfold sampleStep
  rw [if_neg (Nat.not_lt.mpr h)]

theorem auxIter_no_sample (cfg : Config) (st : AuxState) (t r : Nat)
    (h : t ≤ st.next_sampling) :
    (auxIter cfg st t r).1.samples = st.samples ∧
    (auxIter cfg st t r).1.next_sampling = st.next_sampling := by
  unfold auxIter
  rw [sampleStep_no_fire cfg.sampling_period st t r h]
  dsimp only
  split <;> simp

theorem auxLoop_no_sample (cfg : Config) :
    ∀ (sched : List (Nat × Nat)) (st : AuxState),
      (∀ tr ∈ sched, tr.1 ≤ st.next_sampling) →
      (auxLoop cfg st sched).1.samples = st.samples ∧
      (auxLoop cfg st sched).1.next_sampling = st.next_sampling
  | [], st, _ => by simp [auxLoop]
  | tr :: rest, st, h => by
    have h0 : tr.1 ≤ st.next_sampling := h tr (by simp)
    obtain ⟨i1, i2⟩ := auxIter_no_sample cfg st tr.1 tr.2 h0
    have hrest : ∀ p ∈ rest, p.1 ≤ (auxIter cfg st tr.1 tr.2).1.next_sampling := by
      intro p hp
      rw [i2]
      exact h p (List.mem_cons_of_mem _ hp)
    obtain ⟨l1, l2⟩ := auxLoop_no_sample cfg rest (auxIter cfg st tr.1 tr.2).1 hrest
    unfold auxLoop
    exact ⟨by simp [l1, i1], by simp [l2, i2]⟩

theorem nrAuxLoop_no_fire (sp : Nat) :
    ∀ (sched : List (Nat × Nat)) (st : AuxState),
      (∀ tr ∈ sched, tr.1 ≤ st.next_sampling) →
      nrAuxLoop sp st sched = st
  | [], _, _ => rfl
  | tr :: rest, st, h => by
    have h0 : tr.1 ≤ st.next_sampling := h tr (by simp)
    unfold nrAuxLoop
    rw [sampleStep_no_fire sp st tr.1 tr.2 h0]
    exact nrAuxLoop_no_fire sp rest st fun p hp => h p (List.mem_cons_of_mem _ hp)

theorem le_foldl_max : ∀ (vs : List Nat) (a : Nat), a ≤ vs.foldl max a
  | [], a => le_refl a
  | v :: vs, a => le_trans (Nat.le_max_left a v) (le_foldl_max vs (max a v))

theorem sum_le_length_mul_foldl_max :
    ∀ (vs : List Nat) (a : Nat), vs.sum ≤ vs.length * vs.foldl max a
  | [], _ => by simp
  | v :: vs, a => by
    have h1 : v ≤ List.foldl max (max a v) vs :=
      le_trans (Nat.le_max_right a v) (le_foldl_max vs _)
    have h2 := sum_le_length_mul_foldl_max vs (max a v)
    simp only [List.sum_cons, List.length_cons, List.foldl_cons]
    calc v + vs.sum
        ≤ List.foldl max (max a v) vs + vs.length * List.foldl max (max a v) vs :=
          Nat.add_le_add h1 h2
      _ = (vs.length + 1) * List.foldl max (max a v) vs := by ring

theorem sum_div_length_le_foldl_max :
    ∀ vs : List Nat, vs.sum / vs.length ≤ vs.foldl max 0
  | [] => by simp
  | v :: vs =>
    calc (v :: vs).sum / (v :: vs).length
        ≤ (v :: vs).length * ((v :: vs).foldl max 0) / (v :: vs).length :=
          Nat.div_le_div_right (sum_le_length_mul_foldl_max _ 0)
      _ = (v :: vs).foldl max 0 := Nat.mul_div_cancel_left _ (by simp)

theorem sampleStep_stats (sp : Nat) (st : AuxState) (t r : Nat) :
    (sampleStep sp st t r).1.samples =
      st.samples + (sampledVals (sampleStep sp st t r).2).length ∧
    (sampleStep sp st t r).1.acc =
      st.acc + (sampledVals (sampleStep sp st t r).2).sum ∧
    (sampleStep sp st t r).1.peak =
      List.foldl max st.peak (sampledVals (sampleStep sp st t r).2) := by
  unfold sampleStep
  split <;> simp [sampledVals]

theorem nrAuxLoop_stats (sp : Nat) :
    ∀ (sched : List (Nat × Nat)) (st : AuxState),
      (nrAuxLoop sp st sched).samples = st.samples + (nrSampled sp st sched).length ∧
      (nrAuxLoop sp st sched).acc = st.acc + (nrSampled sp st sched).sum ∧
      (nrAuxLoop sp st sched).peak = List.foldl max st.peak (nrSampled sp st sched)
  | [], st => by simp [nrAuxLoop, nrSampled]
  | tr :: rest, st => by
    obtain ⟨i1, i2, i3⟩ := sampleStep_stats sp st tr.1 tr.2
    obtain ⟨l1, l2, l3⟩ := nrAuxLoop_stats sp rest (sampleStep sp st tr.1 tr.2).1
    unfold nrAuxLoop nrSampled
    refine ⟨?_, ?_, ?_⟩
    · simp [l1, i1]; omega
    · simp [l2, i2]; omega
    · simp [l3, i3, List.foldl_append]

/-- C9: whenever an auxiliary thread runs with sampling enabled and
completes (so at least one sample was taken, else its send is never
reached), the reported peak is the maximum and the reported average the
truncated mean of exactly the allocator readings sampled inside the
post-barrier loop — hence peak ≥ average ≥ 0 (`Nat`).  The first conjunct
covers the auxiliary thread of `bench_ebr`/`bench_pebr` (readings recovered
from its event trace), the second the auxiliary thread of `bench_nr`
(readings recovered by `nrSampled` from the same post-barrier schedule its
loop consumed). -/
theorem sampling_peak_ge_avg :
    (∀ (cfg : Config) (sched : List (Nat × Nat)) (p a : Nat) (evs : List AuxEvent),
        cfg.sampling = true →
        auxRun cfg sched = some ((p, a), evs) →
        sampledVals evs ≠ [] ∧
        p = (sampledVals evs).foldl max 0 ∧
        a = (sampledVals evs).sum / (sampledVals evs).length ∧
        a ≤ p) ∧
    (∀ (cfg : Config) (sched : List (Nat × Nat)) (p a : Nat),
        cfg.sampling = true →
        nrAuxRun cfg sched = some (p, a) →
        nrSampled cfg.sampling_period (auxInit cfg) sched ≠ [] ∧
        p = (nrSampled cfg.sampling_period (auxInit cfg) sched).foldl max 0 ∧
        a = (nrSampled cfg.sampling_period (auxInit cfg) sched).sum /
            (nrSampled cfg.sampling_period (auxInit cfg) sched).length ∧
        a ≤ p) := by
  constructor
  · intro cfg sched p a evs hs h
    unfold auxRun at h
    simp only [hs, ite_true, if_true, eq_self_iff_true] at h
    by_cases h0 : (auxLoop cfg (auxInit cfg) sched).1.samples = 0
    · simp [h0] at h
    · simp only [h0, ite_false, if_neg, Option.map_some', Option.some.injEq,
        Prod.mk.injEq] at h
      obtain ⟨⟨hp, ha⟩, hevs⟩ := h
      obtain ⟨s1, s2, s3⟩ := auxLoop_stats cfg sched (auxInit cfg)
      rw [show (auxInit cfg).samples = 0 from rfl, Nat.zero_add] at s1
      rw [show (auxInit cfg).acc = 0 from rfl, Nat.zero_add] at s2
      rw [show (auxInit cfg).peak = 0 from rfl] at s3
      have hv : sampledVals evs =
          sampledVals (auxLoop cfg (auxInit cfg) sched).2 := by
        rw [← hevs]
        by_cases hnc : cfg.non_coop = 0 <;>
          simp [hnc, sampledVals_append, sampledVals, Nat.pos_iff_ne_zero]
      rw [hv]
      have hlen : 0 < (sampledVals (auxLoop cfg (auxInit cfg) sched).2).length := by
        rw [← s1]
        exact Nat.pos_of_ne_zero h0
      refine ⟨?_, ?_, ?_, ?_⟩
      · intro hemp
        rw [hemp] at hlen
        simp at hlen
      · rw [← hp, s3]
      · rw [← ha, s2, s1]
      · rw [← hp, ← ha, s2, s1, s3]
        exact sum_div_length_le_foldl_max _
  · intro cfg sched p a hs h
    unfold nrAuxRun at h
    simp only [hs, ite_true, if_true, eq_self_iff_true] at h
    by_cases h0 : (nrAuxLoop cfg.sampling_period (auxInit cfg) sched).samples = 0
    · simp [h0] at h
    · simp only [h0, ite_false, if_neg, Option.some.injEq, Prod.mk.injEq] at h
      obtain ⟨hp, ha⟩ := h
      obtain ⟨s1, s2, s3⟩ := nrAuxLoop_stats cfg.sampling_period sched (auxInit cfg)
      rw [show (auxInit cfg).samples = 0 from rfl, Nat.zero_add] at s1
      rw [show (auxInit cfg).acc = 0 from rfl, Nat.zero_add] at s2
      rw [show (auxInit cfg).peak = 0 from rfl] at s3
      have hlen : 0 < (nrSampled cfg.sampling_period (auxInit cfg) sched).length := by
        rw [← s1]
        exact Nat.pos_of_ne_zero h0
      refine ⟨?_, ?_, ?_, ?_⟩
      · intro hemp
        rw [hemp] at hlen
        simp at hlen
      · rw [← hp, s3]
      · rw [← ha, s2, s1]
      · rw [← hp, ← ha, s2, s1, s3]
        exact sum_div_length_le_foldl_max _

/-- Witness for C9 at concrete inputs: an EBR configuration and an NR
configuration, both with sampling period 5ms, taking one sample of value 100
at `now = 6`; the reported peak and average are both 100 in each case. -/
theorem sampling_peak_ge_avg_witness :
    (sampledVals [AuxEvent.pin, AuxEvent.dropGuard, AuxEvent.sample 100] ≠ [] ∧
      100 = (sampledVals
          [AuxEvent.pin, AuxEvent.dropGuard, AuxEvent.sample 100]).foldl max 0 ∧
      100 = (sampledVals [AuxEvent.pin, AuxEvent.dropGuard, AuxEvent.sample 100]).sum /
          (sampledVals [AuxEvent.pin, AuxEvent.dropGuard, AuxEvent.sample 100]).length ∧
      100 ≤ 100) ∧
    (nrSampled (mkConfig MM.NR 4 0 0 50 1 5 1).sampling_period
        (auxInit (mkConfig MM.NR 4 0 0 50 1 5 1)) [(6, 100), (8, 50)] ≠ [] ∧
      100 = (nrSampled (mkConfig MM.NR 4 0 0 50 1 5 1).sampling_period
          (auxInit (mkConfig MM.NR 4 0 0 50 1 5 1)) [(6, 100), (8, 50)]).foldl max 0 ∧
      100 = (nrSampled (mkConfig MM.NR 4 0 0 50 1 5 1).sampling_period
            (auxInit (mkConfig MM.NR 4 0 0 50 1 5 1)) [(6, 100), (8, 50)]).sum /
          (nrSampled (mkConfig MM.NR 4 0 0 50 1 5 1).sampling_period
            (auxInit (mkConfig MM.NR 4 0 0 50 1 5 1)) [(6, 100), (8, 50)]).length ∧
      100 ≤ 100) :=
  ⟨sampling_peak_ge_avg.1 (mkConfig MM.EBR 4 0 0 50 1 5 1) [(6, 100), (8, 50)] 100 100
      [AuxEvent.pin, AuxEvent.dropGuard, AuxEvent.sample 100] (by decide) (by decide),
    sampling_peak_ge_avg.2 (mkConfig MM.NR 4 0 0 50 1 5 1) [(6, 100), (8, 50)] 100 100
      (by decide) (by decide)⟩

/-- C8: under non-cooperation level 2 (with EBR or PEBR, whose auxiliary
threads are identical) the auxiliary thread pins its guard once before the
loop and, as long as every loop iteration observes a `now` within the run
window (at most `interval * 1000` ms after the post-barrier start), never
repins: the trace is the initial pin, then loop events that touch the guard
in no way, then the single force-drop at run end.  Under level 1 the repin
period chosen by `setup` is 10ms. -/
theorem non_coop_two_aux_never_repins :
    (∀ (mm : MM) (threads gOcc prefill iv sp opc : Nat) (sched : List (Nat × Nat))
        (m : Nat × Nat) (evs : List AuxEvent),
        (∀ tr ∈ sched, tr.1 ≤ iv * 1000) →
        auxRun (mkConfig mm threads 2 gOcc prefill iv sp opc) sched = some (m, evs) →
        evs = AuxEvent.pin ::
            ((auxLoop (mkConfig mm threads 2 gOcc prefill iv sp opc)
                (auxInit (mkConfig mm threads 2 gOcc prefill iv sp opc)) sched).2
              ++ [AuxEvent.dropGuard]) ∧
        AuxEvent.repin ∉ evs) ∧
    (∀ (mm : MM) (threads gOcc prefill iv sp opc : Nat),
        (mkConfig mm threads 1 gOcc prefill iv sp opc).non_coop_period = 10) := by
  constructor
  · intro mm threads gOcc prefill iv sp opc sched m evs hsched h
    have hnc : (mkConfig mm threads 2 gOcc prefill iv sp opc).non_coop = 2 := rfl
    have hncp : (mkConfig mm threads 2 gOcc prefill iv sp opc).non_coop_period =
        iv * 1000 := rfl
    have hrepin := auxLoop_no_repin (mkConfig mm threads 2 gOcc prefill iv sp opc)
      sched (auxInit (mkConfig mm threads 2 gOcc prefill iv sp opc))
      (by
        intro tr htr
        rw [show (auxInit (mkConfig mm threads 2 gOcc prefill iv sp opc)).next_repin =
          iv * 1000 from rfl]
        exact hsched tr htr)
    have hevs : evs = AuxEvent.pin ::
        ((auxLoop (mkConfig mm threads 2 gOcc prefill iv sp opc)
            (auxInit (mkConfig mm threads 2 gOcc prefill iv sp opc)) sched).2
          ++ [AuxEvent.dropGuard]) := by
      unfold auxRun at h
      rw [hnc] at h
      rcases Option.map_eq_some'.mp h with ⟨m', hm', hpair⟩
      have := congrArg Prod.snd hpair
      simpa using this.symm
    refine ⟨hevs, ?_⟩
    rw [hevs]
    simp [List.mem_append, hrepin.2]
  · intro mm threads gOcc prefill iv sp opc
    rfl

/-- Witness for C8: a concrete non-cooperation-2 run over one iteration at
`now = 6` within a 1-second window takes one sample, never repins, and drops
its guard only at the end. -/
theorem non_coop_two_aux_never_repins_witness :
    ([AuxEvent.pin, AuxEvent.sample 100, AuxEvent.dropGuard] =
      AuxEvent.pin ::
        ((auxLoop (mkConfig MM.EBR 4 2 0 50 1 5 1)
            (auxInit (mkConfig MM.EBR 4 2 0 50 1 5 1)) [(6, 100)]).2
          ++ [AuxEvent.dropGuard]) ∧
    AuxEvent.repin ∉ [AuxEvent.pin, AuxEvent.sample 100, AuxEvent.dropGuard]) :=
  non_coop_two_aux_never_repins.1 MM.EBR 4 0 50 1 5 1 [(6, 100)] (100, 100)
    [AuxEvent.pin, AuxEvent.sample 100, AuxEvent.dropGuard] (by decide) (by decide)

/-- C10: with sampling enabled, the auxiliary thread's average is
`acc / samples`; when the whole run window (`interval * 1000` ms) is shorter
than the sampling period and every loop iteration observes a `now` inside
that window, the sampling conditional never fires, `samples` stays 0, and
the final `acc / samples` division has a zero divisor — a panic (`none`) —
in the auxiliary thread of `bench_ebr`/`bench_pebr` and of `bench_nr`
alike. -/
theorem zero_samples_division_by_zero (iv sp nOcc gOcc : Nat)
    (sched : List (Nat × Nat))
    (hsp : 0 < sp) (hshort : iv * 1000 < sp)
    (hsched : ∀ tr ∈ sched, tr.1 ≤ iv * 1000) :
    auxRun (mkConfig MM.EBR 4 nOcc gOcc 50 iv sp 1) sched = none ∧
    nrAuxRun (mkConfig MM.NR 4 0 gOcc 50 iv sp 1) sched = none := by
  have hbound1 : ∀ tr ∈ sched,
      tr.1 ≤ (auxInit (mkConfig MM.EBR 4 nOcc gOcc 50 iv sp 1)).next_sampling := by
    intro tr htr
    rw [show (auxInit (mkConfig MM.EBR 4 nOcc gOcc 50 iv sp 1)).next_sampling = sp
      from rfl]
    exact le_of_lt (lt_of_le_of_lt (hsched tr htr) hshort)
  have hbound2 : ∀ tr ∈ sched,
      tr.1 ≤ (auxInit (mkConfig MM.NR 4 0 gOcc 50 iv sp 1)).next_sampling := by
    intro tr htr
    rw [show (auxInit (mkConfig MM.NR 4 0 gOcc 50 iv sp 1)).next_sampling = sp
      from rfl]
    exact le_of_lt (lt_of_le_of_lt (hsched tr htr) hshort)
  constructor
  · have hzero := (auxLoop_no_sample (mkConfig MM.EBR 4 nOcc gOcc 50 iv sp 1) sched
      (auxInit (mkConfig MM.EBR 4 nOcc gOcc 50 iv sp 1)) hbound1).1
    rw [show (auxInit (mkConfig MM.EBR 4 nOcc gOcc 50 iv sp 1)).samples = 0
      from rfl] at hzero
    unfold auxRun
    rw [show (mkConfig MM.EBR 4 nOcc gOcc 50 iv sp 1).sampling = true by
      simp [mkConfig, hsp]]
    simp [hzero]
  · have hst := nrAuxLoop_no_fire sp sched
      (auxInit (mkConfig MM.NR 4 0 gOcc 50 iv sp 1)) hbound2
    unfold nrAuxRun
    rw [show (mkConfig MM.NR 4 0 gOcc 50 iv sp 1).sampling = true by
      simp [mkConfig, hsp]]
    rw [show (mkConfig MM.NR 4 0 gOcc 50 iv sp 1).sampling_period = sp from rfl]
    simp [hst, show (auxInit (mkConfig MM.NR 4 0 gOcc 50 iv sp 1)).samples = 0 from rfl]

/-- Witness for C10: a 1-second run with a 5000ms sampling period takes zero
samples, so both auxiliary-thread variants hit the zero-divisor division and
panic. -/
theorem zero_samples_division_by_zero_witness :
    auxRun (mkConfig MM.EBR 4 0 0 50 1 5000 1) [(10, 100), (500, 200)] = none ∧
    nrAuxRun (mkConfig MM.NR 4 0 0 50 1 5000 1) [(10, 100), (500, 200)] = none :=
  zero_samples_division_by_zero 1 5000 0 0 [(10, 100), (500, 200)]
    (by decide) (by decide) (by decide)
